import Mathlib

/-!
Verification of the `aoc2023` puzzle-solver repository (days 1-4).

Strings from the Rust source are modelled as `List Char` (named `Str` below);
`u64` / `usize` values are modelled as `Nat`, with the `2^64` overflow check of
`str::parse::<u64>` made explicit where the Rust code can fail.  Fallible Rust
functions returning `anyhow::Result` are modelled with `Except`, using one
error constructor per distinct error site of the source.  Machine-level
wrap-around of the running totals (which Rust would only exhibit on inputs
whose answers exceed `2^64`) is outside the model.
-/

/-- Str is the model of Rust string slices: a list of unicode scalar values. -/
abbrev Str := List Char

namespace rust

/-- Model of `char::is_ascii_digit` (also Lean's `Char.isDigit`). -/
def isAsciiDigit (c : Char) : Bool := c.isDigit

/-- Code-point ranges (inclusive) of the Unicode general categories Nd, Nl
and No in Unicode 15.0, the data consulted by Rust's `char::is_numeric` in
the toolchains of this repository's era. -/
def numericRanges : List (Nat × Nat) :=
  [
    (48, 57), (178, 179), (185, 185), (188, 190), (1632, 1641), (1776, 1785),
    (1984, 1993), (2406, 2415), (2534, 2543), (2548, 2553), (2662, 2671),
    (2790, 2799), (2918, 2927), (2930, 2935), (3046, 3058), (3174, 3183),
    (3192, 3198), (3302, 3311), (3416, 3422), (3430, 3448), (3558, 3567),
    (3664, 3673), (3792, 3801), (3872, 3891), (4160, 4169), (4240, 4249),
    (4969, 4988), (5870, 5872), (6112, 6121), (6128, 6137), (6160, 6169),
    (6470, 6479), (6608, 6618), (6784, 6793), (6800, 6809), (6992, 7001),
    (7088, 7097), (7232, 7241), (7248, 7257), (8304, 8304), (8308, 8313),
    (8320, 8329), (8528, 8578), (8581, 8585), (9312, 9371), (9450, 9471),
    (10102, 10131), (11517, 11517), (12295, 12295), (12321, 12329),
    (12344, 12346), (12690, 12693), (12832, 12841), (12872, 12879),
    (12881, 12895), (12928, 12937), (12977, 12991), (42528, 42537),
    (42726, 42735), (43056, 43061), (43216, 43225), (43264, 43273),
    (43472, 43481), (43504, 43513), (43600, 43609), (44016, 44025),
    (65296, 65305), (65799, 65843), (65856, 65912), (65930, 65931),
    (66273, 66299), (66336, 66339), (66369, 66369), (66378, 66378),
    (66513, 66517), (66720, 66729), (67672, 67679), (67705, 67711),
    (67751, 67759), (67835, 67839), (67862, 67867), (68028, 68029),
    (68032, 68047), (68050, 68095), (68160, 68168), (68221, 68222),
    (68253, 68255), (68331, 68335), (68440, 68447), (68472, 68479),
    (68521, 68527), (68858, 68863), (68912, 68921), (69216, 69246),
    (69405, 69414), (69457, 69460), (69573, 69579), (69714, 69743),
    (69872, 69881), (69942, 69951), (70096, 70105), (70113, 70132),
    (70384, 70393), (70736, 70745), (70864, 70873), (71248, 71257),
    (71360, 71369), (71472, 71483), (71904, 71922), (72016, 72025),
    (72784, 72812), (73040, 73049), (73120, 73129), (73552, 73561),
    (73664, 73684), (74752, 74862), (92768, 92777), (92864, 92873),
    (93008, 93017), (93019, 93025), (93824, 93846), (119520, 119539),
    (119648, 119672), (120782, 120831), (123200, 123209), (123632, 123641),
    (124144, 124153), (125127, 125135), (125264, 125273), (126065, 126123),
    (126125, 126127), (126129, 126132), (126209, 126253), (126255, 126269),
    (127232, 127244), (130032, 130041) ]

/-- Model of Rust `char::is_numeric`: true exactly for the characters whose
Unicode general category is Nd, Nl or No (this includes the ASCII digits
`'0'..'9'`, but also characters such as `'½'` and `'²'`). -/
def isNumericChar (c : Char) : Bool :=
  numericRanges.any (fun r => decide (r.1 ≤ c.toNat) && decide (c.toNat ≤ r.2))

/-- Model of `char::is_ascii_whitespace` (space, tab, newline, form feed,
carriage return); also used for `str::trim`, which on ASCII input trims
exactly these characters. -/
def isWhite (c : Char) : Bool :=
  c = ' ' || c = '\t' || c = '\n' || c = '\x0c' || c = '\r'

/-- Error cases of `str::parse` into an unsigned integer (`ParseIntError`). -/
inductive NumErr where
  | empty
  | invalidDigit
  | overflow
deriving DecidableEq, Repr

/-- Decimal value of a digit list, most significant first. -/
def natOfDigits (l : Str) : Nat :=
  l.foldl (fun a c => 10 * a + (c.toNat - 48)) 0

/-- Strip the optional leading `+` sign accepted by `str::parse` into an
unsigned integer. -/
def stripSign : Str → Str
  | '+' :: t => t
  | l => l

/-- Model of `str::parse::<u64>` (and of `parse::<usize>` on a 64-bit
target): an optional leading `+`, then one or more ASCII digits, with an
overflow check at `2^64`. -/
def parseU64 (l : Str) : Except NumErr Nat :=
  if stripSign l = [] then .error .empty
  else if (stripSign l).all isAsciiDigit then
    if natOfDigits (stripSign l) < 2 ^ 64 then .ok (natOfDigits (stripSign l))
    else .error .overflow
  else .error .invalidDigit

/-- Model of `str::split_once(sep)`: split at the first occurrence of `sep`,
returning `none` when `sep` does not occur. -/
def splitOnce (sep : Char) : Str → Option (Str × Str)
  | [] => none
  | c :: t =>
    if c = sep then some ([], t)
    else (splitOnce sep t).map (fun pr => (c :: pr.1, pr.2))

/-- Model of `str::split(sep)`: `n` separators yield `n + 1` pieces (so the
result is never empty, and the empty string yields `[[]]`). -/
def splitAll (sep : Char) : Str → List Str
  | [] => [[]]
  | c :: t =>
    if c = sep then [] :: splitAll sep t
    else
      match splitAll sep t with
      | [] => [[c]]
      | w :: ws => (c :: w) :: ws

/-- Helper for `splitWhite`, carrying the word accumulated so far. -/
def splitWhiteAux : Str → Str → List Str
  | [], acc => if acc = [] then [] else [acc]
  | c :: t, acc =>
    if isWhite c then
      if acc = [] then splitWhiteAux t [] else acc :: splitWhiteAux t []
    else splitWhiteAux t (acc ++ [c])

/-- Model of `str::split_ascii_whitespace`: maximal non-whitespace runs, with
no empty pieces. -/
def splitWhite (l : Str) : List Str := splitWhiteAux l []

/-- Model of `str::trim` (on input whose whitespace is ASCII). -/
def trim (l : Str) : Str :=
  ((l.dropWhile isWhite).reverse.dropWhile isWhite).reverse

/-- Strip one trailing carriage return, as `str::lines` does per line. -/
def dropCR (l : Str) : Str :=
  if l.getLast? = some '\r' then l.dropLast else l

/-- Model of `str::lines`: split on `'\n'`, drop the final empty piece
produced by a trailing newline, and strip one `'\r'` from each line end. -/
def linesOf (s : Str) : List Str :=
  if s = [] then []
  else
    let ps := splitAll '\n' s
    let ps := if ps.getLast? = some [] then ps.dropLast else ps
    ps.map dropCR

/-- Inclusive range `a..=b` of Rust, as a list. -/
def rangeIncl (a b : Nat) : List Nat := List.range' a (b + 1 - a)

end rust

/-- First error produced by `f` on a list of lines, if any; the model of
"the first malformed line aborts the whole solve". -/
def firstErr {ε α : Type} (f : Str → Except ε α) (ls : List Str) : Option ε :=
  ls.findSome? (fun l => match f l with | .error e => some e | .ok _ => none)

/-- Model of collecting an iterator of `Result`s into `Result<Vec<_>>` (and
of a `for` loop of fallible parses pushing into a vector): apply `f` in
order, stopping at the first error. -/
def mapE {ε α β : Type} (f : α → Except ε β) : List α → Except ε (List β)
  | [] => .ok []
  | a :: t =>
    match f a with
    | .error e => .error e
    | .ok b => (mapE f t).map (fun bs => b :: bs)

instance {ε α : Type} [DecidableEq ε] [DecidableEq α] : DecidableEq (Except ε α) := by
  intro a b
  cases a <;> cases b
  case error.error e f =>
    exact if h : e = f then .isTrue (by rw [h]) else .isFalse (by intro hc; cases hc; exact h rfl)
  case error.ok e x => exact .isFalse (by intro hc; cases hc)
  case ok.error x e => exact .isFalse (by intro hc; cases hc)
  case ok.ok x y =>
    exact if h : x = y then .isTrue (by rw [h]) else .isFalse (by intro hc; cases hc; exact h rfl)

namespace day1

open rust

/-- Error type of the day-1 solvers (`anyhow` errors in the source). -/
inductive Err where
  | noDigits
  | notAValidDigit
  | num (e : NumErr)
deriving DecidableEq, Repr

/-- Wrap a numeric parse result into the day-1 error type. -/
def parseNum (l : Str) : Except Err Nat := (parseU64 l).mapError Err.num

/-- Model of `NUMERICS`: the ten digit strings followed by the ten number
words, in source order. -/
def NUMERICS : List Str :=
  [ r"0".data, r"1".data, r"2".data, r"3".data, r"4".data,
    r"5".data, r"6".data, r"7".data, r"8".data, r"9".data,
    r"zero".data, r"one".data, r"two".data, r"three".data, r"four".data,
    r"five".data, r"six".data, r"seven".data, r"eight".data, r"nine".data ]

/-- Model of `StringDigit::to_u64`: digit strings go through `str::parse`,
number words map to their values, anything else is an error. -/
def to_u64 (s : Str) : Except Err Nat :=
  if s ∈ NUMERICS.take 10 then parseNum s
  else if s = r"zero".data then .ok 0
  else if s = r"one".data then .ok 1
  else if s = r"two".data then .ok 2
  else if s = r"three".data then .ok 3
  else if s = r"four".data then .ok 4
  else if s = r"five".data then .ok 5
  else if s = r"six".data then .ok 6
  else if s = r"seven".data then .ok 7
  else if s = r"eight".data then .ok 8
  else if s = r"nine".data then .ok 9
  else .error .notAValidDigit

/-- Model of `extract_first_and_last_digits`: keep the numeric characters,
then parse the two-character string formed by the first and the last one. -/
def extract_first_and_last_digits (text : Str) : Except Err Nat :=
  let digits := text.filter isNumericChar
  match digits.head?, digits.getLast? with
  | some first, some last => parseNum [first, last]
  | _, _ => .error .noDigits

/-- Occurrence test: does pattern `p` start at offset `i` of `s`? -/
def occursAt (p s : Str) (i : Nat) : Bool :=
  decide ((s.drop i).take p.length = p)

/-- Worker for `match_indices`; `fuel` only bounds the recursion and is chosen
large enough to never run out. -/
def match_indices_aux (p s : Str) : Nat → Nat → List Nat
  | _, 0 => []
  | i, fuel + 1 =>
    if s.length < i + p.length then []
    else if occursAt p s i then i :: match_indices_aux p s (i + p.length) fuel
    else match_indices_aux p s (i + 1) fuel

/-- Model of `str::match_indices(pat)` for a nonempty string pattern: scan
left to right, and after a match resume after it (matches of one pattern do
not overlap each other). -/
def match_indices (p s : Str) : List Nat := match_indices_aux p s 0 (s.length + 1)

/-- Ordering used by `sort_by_key(|x| x.0)` on (offset, pattern) pairs. -/
def byOffset (a b : Nat × Str) : Prop := a.1 ≤ b.1

instance : DecidableRel byOffset := fun a b => Nat.decLe a.1 b.1

instance : IsTotal (Nat × Str) byOffset := ⟨fun a b => Nat.le_total a.1 b.1⟩

instance : IsTrans (Nat × Str) byOffset := ⟨fun _ _ _ h h' => Nat.le_trans h h'⟩

/-- Model of `filter_digits_and_numeric_words`: collect the match indices of
every numeric pattern, sort the (offset, matched slice) pairs by offset
(Rust's sort is stable, as is `List.insertionSort`), and convert each matched
slice to its value. -/
def filter_digits_and_numeric_words (text : Str) : Except Err (List Nat) :=
  let digits := NUMERICS.foldl
    (fun acc p => acc ++ (match_indices p text).map (fun i => (i, p))) []
  mapE (fun x => to_u64 x.2) (List.insertionSort byOffset digits)

/-- Model of `extract_first_and_last_digit_or_numeric_word`. -/
def extract_first_and_last_digit_or_numeric_word (text : Str) : Except Err Nat := do
  let digits ← filter_digits_and_numeric_words text
  match digits.head?, digits.getLast? with
  | some first, some last => .ok (first * 10 + last)
  | _, _ => .error .noDigits

/-- Shared shape of both day-1 solvers: add up `f` over the lines, stopping
at the first error. -/
def sumLines (f : Str → Except Err Nat) : List Str → Nat → Except Err Nat
  | [], total => .ok total
  | l :: t, total =>
    match f l with
    | .error e => .error e
    | .ok v => sumLines f t (total + v)

/-- Model of day 1 `solve_part_one`. -/
def solve_part_one (text : Str) : Except Err Nat :=
  sumLines extract_first_and_last_digits (linesOf text) 0

/-- Model of day 1 `solve_part_two`. -/
def solve_part_two (text : Str) : Except Err Nat :=
  sumLines extract_first_and_last_digit_or_numeric_word (linesOf text) 0

/-- Model of the rayon variant `mt::solve_part_one`: a parallel map over the
lines collected into a `Result`, followed by a parallel sum. -/
def mt_solve_part_one (text : Str) : Except Err Nat :=
  (mapE extract_first_and_last_digits (linesOf text)).map (fun nums => nums.sum)

/-- Model of the rayon variant `mt::solve_part_two`. -/
def mt_solve_part_two (text : Str) : Except Err Nat :=
  (mapE extract_first_and_last_digit_or_numeric_word (linesOf text)).map
    (fun nums => nums.sum)

/-- Border-freeness of a pattern: no proper suffix of `p` equals the prefix
of `p` of the same length.  Every numeric pattern satisfies it, which is why
the self-skipping scan of `match_indices` still finds every occurrence. -/
def noBorder (p : Str) : Bool :=
  (List.range p.length).all (fun k => decide (k = 0 ∨ p.drop k ≠ p.take (p.length - k)))

/-- Specification view: the numeric pattern occurring at offset `i`, if any
(at most one pattern can occur at a given offset). -/
def specNumericAt (s : Str) (i : Nat) : Option Str :=
  NUMERICS.find? (fun p => occursAt p s i)

/-- Specification view: every occurrence of a digit string or number word,
ordered by starting offset. -/
def specOccPairs (s : Str) : List (Nat × Str) :=
  (List.range s.length).filterMap (fun i => (specNumericAt s i).map (fun p => (i, p)))

/-- Numeric value (0 to 9) of a digit string or number word. -/
def numVal (p : Str) : Nat :=
  if p = r"0".data ∨ p = r"zero".data then 0
  else if p = r"1".data ∨ p = r"one".data then 1
  else if p = r"2".data ∨ p = r"two".data then 2
  else if p = r"3".data ∨ p = r"three".data then 3
  else if p = r"4".data ∨ p = r"four".data then 4
  else if p = r"5".data ∨ p = r"five".data then 5
  else if p = r"6".data ∨ p = r"six".data then 6
  else if p = r"7".data ∨ p = r"seven".data then 7
  else if p = r"8".data ∨ p = r"eight".data then 8
  else 9

/-- Specification view: the values of the line's occurrences in offset
order. -/
def specLineValues (s : Str) : List Nat :=
  (specOccPairs s).map (fun pr => numVal pr.2)

/-- Specification view of the part-two per-line value: ten times the first
occurrence's value plus the last occurrence's value. -/
def specLineValue (s : Str) : Except Err Nat :=
  match (specLineValues s).head?, (specLineValues s).getLast? with
  | some first, some last => .ok (first * 10 + last)
  | _, _ => .error .noDigits

end day1

namespace day2

open rust

/-- Error type of the day-2 parser, one constructor per error site of
`parse_line`. -/
inductive Err where
  | noSpace
  | noColon
  | badId (e : NumErr)
  | cubeDataNoSpace
  | badCount (e : NumErr)
deriving DecidableEq, Repr

/-- GameData is the model of day 2's `(u64, Vec<Vec<(u64, &str)>>)`. -/
abbrev GameData := Nat × List (List (Nat × Str))

/-- Model of `parse_line`: drop the `Game` prefix at the first space, split
the id at the colon, then split the remainder into `;`-separated subsets of
`,`-separated `count color` pairs. -/
def parse_line (text : Str) : Except Err GameData := do
  let (_, useful_text) ←
    match splitOnce ' ' text with
    | none => Except.error Err.noSpace
    | some pr => Except.ok pr
  let (id, draw_data) ←
    match splitOnce ':' useful_text with
    | none => Except.error Err.noColon
    | some pr => Except.ok pr
  let parsed_id ← (parseU64 id).mapError Err.badId
  let parsed_subsets ← mapE (fun subset =>
    mapE (fun data =>
      match splitOnce ' ' (trim data) with
      | none => Except.error Err.cubeDataNoSpace
      | some (count, color) =>
        ((parseU64 count).mapError Err.badCount).map (fun n => (n, color)))
      (splitAll ',' subset)) (splitAll ';' draw_data)
  return (parsed_id, parsed_subsets)

/-- Update step of `highest_count_seen`: an occupied entry keeps the larger
value, a vacant key is inserted at the end. -/
def updateMax : List (Str × Nat) → Str → Nat → List (Str × Nat)
  | [], color, n => [(color, n)]
  | (c, v) :: t, color, n =>
    if color = c then (c, if v < n then n else v) :: t
    else (c, v) :: updateMax t color n

/-- Model of `highest_count_seen`: fold every `(count, color)` pair of every
subset into a map from color to the highest count seen.  The Rust `HashMap`
is modelled as an association list with unique keys, in first-insertion
order; only its key-value contents are observable in the solvers. -/
def highest_count_seen (data : GameData) : List (Str × Nat) :=
  data.2.foldl (fun m set => set.foldl (fun m' p => updateMax m' p.2 p.1) m) []

/-- Model of `allowed_for_part_one`: the fixed bag limits. -/
def allowed_for_part_one (number : Nat) (color : Str) : Bool :=
  if color = r"red".data then number ≤ 12
  else if color = r"green".data then number ≤ 13
  else if color = r"blue".data then number ≤ 14
  else false

/-- Model of `possible_game`: every recorded color count satisfies the
rules. -/
def possible_game (counts : List (Str × Nat)) (rules : Nat → Str → Bool) : Bool :=
  counts.all (fun p => rules p.2 p.1)

/-- Ids collected by day 2 `solve_part_one`, in input order. -/
def part_one_ids : List Str → Except Err (List Nat)
  | [] => .ok []
  | l :: t => do
    let data ← parse_line l
    let rest ← part_one_ids t
    if possible_game (highest_count_seen data) allowed_for_part_one then
      return data.1 :: rest
    else
      return rest

/-- Model of day 2 `solve_part_one`: sum the ids of the possible games. -/
def solve_part_one (text : Str) : Except Err Nat :=
  (part_one_ids (linesOf text)).map (fun ids => ids.sum)

/-- Powers collected by day 2 `solve_part_two`, in input order: for each
game, the product of the values of its highest-count map. -/
def part_two_powers : List Str → Except Err (List Nat)
  | [] => .ok []
  | l :: t => do
    let data ← parse_line l
    let rest ← part_two_powers t
    return ((highest_count_seen data).map (fun p => p.2)).prod :: rest

/-- Model of day 2 `solve_part_two`: sum the powers of all games. -/
def solve_part_two (text : Str) : Except Err Nat :=
  (part_two_powers (linesOf text)).map (fun powers => powers.sum)

/-- Specification view of a game: every `(count, color)` pair drawn in any
subset, in order. -/
def draws (g : GameData) : List (Nat × Str) := g.2.flatten

/-- Specification view: the colors observed in a game, with repetitions. -/
def colorsOf (g : GameData) : List Str := (draws g).map (fun p => p.2)

/-- Specification view: the maximum count of a color across all subsets of a
game (`0` if the color never appears; every count is a natural number, so the
seed `0` is neutral). -/
def maxCount (g : GameData) (color : Str) : Nat :=
  (((draws g).filter (fun p => p.2 = color)).map (fun p => p.1)).foldl max 0

/-- Flat form of the counting fold of `highest_count_seen`, over the
concatenated draw list. -/
def buildCounts (ds : List (Nat × Str)) : List (Str × Nat) :=
  ds.foldl (fun m p => updateMax m p.2 p.1) []

/-- Flat form of `maxCount`, over an explicit draw list. -/
def maxOf (ds : List (Nat × Str)) (color : Str) : Nat :=
  (((ds.filter (fun p => p.2 = color))).map (fun p => p.1)).foldl max 0

/-- Specification view of the claim "a game is possible iff every color's
maximum count across its subsets is within the fixed limits". -/
def specPossible (g : GameData) : Bool :=
  (colorsOf g).all (fun c => allowed_for_part_one (maxCount g c) c)

/-- First-occurrence deduplication (keeps the first copy of each element, in
order), used to state "the colors actually observed in a game". -/
def firstOccurAux {α : Type} [DecidableEq α] : List α → List α → List α
  | _, [] => []
  | seen, a :: t =>
    if a ∈ seen then firstOccurAux seen t else a :: firstOccurAux (a :: seen) t

/-- Distinct elements of a list in order of first occurrence. -/
def firstOccur {α : Type} [DecidableEq α] (l : List α) : List α := firstOccurAux [] l

/-- Specification view of the claim "the power is the product of the
per-color maxima over only the colors actually observed in the game". -/
def specPower (g : GameData) : Nat :=
  ((firstOccur (colorsOf g)).map (fun c => maxCount g c)).prod

end day2

namespace day3

open rust

/-- Error type of day 3's `parse`.  `digitAndSymbol` models the
`unreachable!()` panic of the digit-and-symbol match arm, and
`indexUnderflow` models the `usize` underflow of `i - 1` that debug builds
would report when a number is finalized at column `0`; both are proved
unreachable below.  `num` is the real error path: `str::parse::<u64>`
failing on an over-long digit run. -/
inductive Err where
  | num (e : NumErr)
  | digitAndSymbol
  | indexUnderflow
deriving DecidableEq, Repr

/-- PartNumber is the model of the source struct of the same name; `end_`
stands for the reserved field name `end`. -/
structure PartNumber where
  row : Nat
  begin : Nat
  end_ : Nat
  number : Nat
deriving DecidableEq, Repr

/-- SchematicSymbol is the model of the source struct of the same name. -/
structure SchematicSymbol where
  row : Nat
  offset : Nat
  symbol : Char
deriving DecidableEq, Repr

/-- LookupTable models `HashMap<(usize, usize), SchematicSymbol>` as an
association list in which the most recent insertion for a key comes first;
only lookups are performed on it, so this captures the map exactly. -/
abbrev LookupTable := List ((Nat × Nat) × SchematicSymbol)

/-- Lookup in the adjacency map: the most recently inserted binding wins,
matching `HashMap::insert` overwrite semantics. -/
def getPos (tab : LookupTable) (k : Nat × Nat) : Option SchematicSymbol :=
  (tab.find? (fun e => e.1 = k)).map (fun e => e.2)

/-- Model of `Symbol::is_a_symbol`: not a digit and not a period. -/
def is_a_symbol (c : Char) : Bool := !(c.isDigit || c = '.')

/-- Model of `update_positions`: record the symbol at every cell of the 3x3
neighborhood (keys are `(x, y)` pairs, `saturating_sub` clamps at zero);
newly inserted bindings shadow older ones. -/
def update_positions (row i : Nat) (c : Char) (tab : LookupTable) : LookupTable :=
  let sym : SchematicSymbol := ⟨row, i, c⟩
  (rangeIncl (row - 1) (row + 1)).foldl
    (fun t y => (rangeIncl (i - 1) (i + 1)).foldl
      (fun t' x => ((x, y), sym) :: t') t) tab

/-- Model of `finalize_part_number` (the mode reset is handled by the
caller): parse the accumulated digit run. -/
def finalize_part_number (row begin_ end_ : Nat) (cur : Str) : Except Err PartNumber :=
  ((parseU64 cur).mapError Err.num).map (fun n => ⟨row, begin_, end_, n⟩)

/-- Per-character loop of day 3 `parse`.  `i` is the enumeration index of the
head of `cs`, `parsing` is true in the `ParsingNumber` state, `begin_` and
`cur` are the start column and accumulated digits of the current run.  The
`peek` of the source corresponds to matching on the tail. -/
def parseGo (row : Nat) : List Char → Nat → Bool → Nat → Str →
    List PartNumber → LookupTable → Except Err (List PartNumber × LookupTable)
  | [], _, _, _, _, part_numbers, valid_positions => .ok (part_numbers, valid_positions)
  | c :: rest, i, parsing, begin_, cur, part_numbers, valid_positions =>
    match c.isDigit, is_a_symbol c, parsing with
    | true, true, _ => .error .digitAndSymbol
    | true, false, false =>
      parseGo row rest (i + 1) true i [c] part_numbers valid_positions
    | false, true, false =>
      parseGo row rest (i + 1) false begin_ cur part_numbers
        (update_positions row i c valid_positions)
    | false, false, false =>
      parseGo row rest (i + 1) false begin_ cur part_numbers valid_positions
    | true, false, true =>
      let cur' := cur ++ [c]
      match rest with
      | [] =>
        match finalize_part_number row begin_ i cur' with
        | .error e => .error e
        | .ok pn => parseGo row rest (i + 1) false begin_ [] (part_numbers ++ [pn]) valid_positions
      | _ :: _ =>
        parseGo row rest (i + 1) true begin_ cur' part_numbers valid_positions
    | false, true, true =>
      let valid_positions' := update_positions row i c valid_positions
      if i = 0 then .error .indexUnderflow
      else
        match finalize_part_number row begin_ (i - 1) cur with
        | .error e => .error e
        | .ok pn => parseGo row rest (i + 1) false begin_ [] (part_numbers ++ [pn]) valid_positions'
    | false, false, true =>
      if i = 0 then .error .indexUnderflow
      else
        match finalize_part_number row begin_ (i - 1) cur with
        | .error e => .error e
        | .ok pn => parseGo row rest (i + 1) false begin_ [] (part_numbers ++ [pn]) valid_positions

/-- Model of day 3 `parse`: run the scanner over one row. -/
def parse (text : Str) (row : Nat) : Except Err (List PartNumber × LookupTable) :=
  parseGo row text 0 false 0 [] [] []

/-- Shared preamble of both day-3 solvers: parse every line, appending the
part numbers in row order and merging the per-row adjacency maps (new
bindings shadow older rows, matching `HashMap::insert` overwrites). -/
def gather : List Str → Nat → List PartNumber → LookupTable →
    Except Err (List PartNumber × LookupTable)
  | [], _, part_numbers, valid_positions => .ok (part_numbers, valid_positions)
  | l :: t, i, part_numbers, valid_positions => do
    let (new_pns, new_tab) ← parse l i
    gather t (i + 1) (part_numbers ++ new_pns) (new_tab ++ valid_positions)

/-- Model of day 3 `solve_part_one`: sum the part numbers having some column
of their span adjacent to a symbol. -/
def solve_part_one (text : Str) : Except Err Nat := do
  let (part_numbers, valid_positions) ← gather (linesOf text) 0 [] []
  return ((part_numbers.filter (fun pn =>
    (rangeIncl pn.begin pn.end_).any (fun x => (getPos valid_positions (x, pn.row)).isSome))).map
      (fun pn => pn.number)).sum

/-- Attribution scan of day 3 `solve_part_two`: walk the columns of the span
left to right; an existing entry whose symbol is not `*` is skipped
(`continue`), the first `*` entry is returned (`break`). -/
def firstStar (tab : LookupTable) (pn : PartNumber) : Option SchematicSymbol :=
  (rangeIncl pn.begin pn.end_).findSome? (fun x =>
    match getPos tab (x, pn.row) with
    | some entry => if entry.symbol = '*' then some entry else none
    | none => none)

/-- Entry update of the gear-ratio table: push onto an occupied entry's
vector, insert a fresh singleton otherwise (new keys keep first-occurrence
order; the `HashMap` iteration order is immaterial because the final value is
a sum). -/
def pushRatio : List (SchematicSymbol × List Nat) → SchematicSymbol → Nat →
    List (SchematicSymbol × List Nat)
  | [], g, n => [(g, [n])]
  | (g', v) :: t, g, n =>
    if g' = g then (g', v ++ [n]) :: t
    else (g', v) :: pushRatio t g n

/-- Grouping fold of day 3 `solve_part_two`: attribute each part number to
its first `*` entry, if any. -/
def groupFold (tab : LookupTable) (pns : List PartNumber) :
    List (SchematicSymbol × List Nat) :=
  pns.foldl (fun g pn =>
    match firstStar tab pn with
    | some entry => pushRatio g entry pn.number
    | none => g) []

/-- Model of day 3 `solve_part_two`: groups with exactly two part numbers are
gears; sum the products. -/
def solve_part_two (text : Str) : Except Err Nat := do
  let (part_numbers, valid_positions) ← gather (linesOf text) 0 [] []
  let unvalidated_gear_ratios := groupFold valid_positions part_numbers
  return ((unvalidated_gear_ratios.filter (fun kv => kv.2.length = 2)).map
    (fun kv => kv.2.prod)).sum

/-- Specification view: the part numbers attributed to a given symbol (the
first `*` entry of their span), in input order. -/
def attributed (tab : LookupTable) (pns : List PartNumber) (g : SchematicSymbol) : List Nat :=
  (pns.filter (fun pn => firstStar tab pn = some g)).map (fun pn => pn.number)

/-- Specification view: the distinct symbols that some part number is
attributed to, in order of first attribution. -/
def starSymbols (tab : LookupTable) (pns : List PartNumber) : List SchematicSymbol :=
  day2.firstOccur (pns.filterMap (firstStar tab))

/-- Specification view of the claim: group part numbers by the exact identity
of their first `*` symbol; groups of exactly two are gears; sum the products
of the two numbers of each gear. -/
def specGearSum (tab : LookupTable) (pns : List PartNumber) : Nat :=
  (((starSymbols tab pns).filter (fun g => (attributed tab pns g).length = 2)).map
    (fun g => (attributed tab pns g).prod)).sum

/-- Recognizer for the modelled `unreachable!()` outcome. -/
def hitsDigitAndSymbol {α : Type} : Except Err α → Bool
  | .error .digitAndSymbol => true
  | _ => false

/-- Recognizer for the modelled `i - 1` underflow outcome. -/
def hitsUnderflow {α : Type} : Except Err α → Bool
  | .error .indexUnderflow => true
  | _ => false

/-- First parse error over the rows of day 3, carrying the row index along
as `parse` does. -/
def firstErrIdx : List Str → Nat → Option Err
  | [], _ => none
  | l :: t, i =>
    match parse l i with
    | .error e => some e
    | .ok _ => firstErrIdx t (i + 1)

/-- Canonical 10x10 example schematic of the source documentation. -/
def exampleGrid : Str :=
  (r"467..114.." ++ "\n" ++ r"...*......" ++ "\n" ++ r"..35..633." ++ "\n" ++
   r"......#..." ++ "\n" ++ r"617*......" ++ "\n" ++ r".....+.58." ++ "\n" ++
   r"..592....." ++ "\n" ++ r"......755." ++ "\n" ++ r"...$.*...." ++ "\n" ++
   r".664.598..").data

/-- Parsed form (part numbers, adjacency map) of the example grid, used to
instantiate the general part-two theorem on a concrete input. -/
def exampleParsed : List PartNumber × LookupTable :=
  (gather (rust.linesOf exampleGrid) 0 [] []).toOption.getD ([], [])

end day3

namespace day4

open rust

/-- Error type of the day-4 solvers, one constructor per error site. -/
inductive Err where
  | noColon
  | badCardId
  | cardNum
  | noPipe
  | badNumber (e : NumErr)
deriving DecidableEq, Repr

/-- Shared per-line parse of day 4: split off the card prefix at the colon,
split winning from held numbers at the pipe, parse both whitespace-separated
lists, and count how many held numbers are winning (`HashSet` membership is
list membership).  Returns the remaining useful text split plus the match
count. -/
def matchesOfLine (useful_text : Str) : Except Err Nat := do
  let (winning_text, our_text) ←
    match splitOnce '|' useful_text with
    | none => Except.error Err.noPipe
    | some pr => Except.ok pr
  let winning_numbers ← mapE
    (fun number => (parseU64 number).mapError Err.badNumber) (splitWhite winning_text)
  let our_numbers ← mapE
    (fun number => (parseU64 number).mapError Err.badNumber) (splitWhite our_text)
  return (our_numbers.filter (fun n => n ∈ winning_numbers)).length

/-- Model of the per-line parsing of day 4 `solve_part_one` (the card id is
ignored there). -/
def parseLinePartOne (line : Str) : Except Err Nat := do
  let (_, useful_text) ←
    match splitOnce ':' line with
    | none => Except.error Err.noColon
    | some pr => Except.ok pr
  matchesOfLine useful_text

/-- Model of day 4 `solve_part_two`'s per-line parsing: additionally split
and parse the card id (with `with_context`, any id parse failure surfaces as
the `cardNum` error).  Returns `(card_number, match_count)`. -/
def parse_card (line : Str) : Except Err (Nat × Nat) := do
  let (id, useful_text) ←
    match splitOnce ':' line with
    | none => Except.error Err.noColon
    | some pr => Except.ok pr
  let (_, card_number_text) ←
    match splitOnce ' ' id with
    | none => Except.error Err.badCardId
    | some pr => Except.ok pr
  let card_number ←
    match parseU64 (trim card_number_text) with
    | .error _ => Except.error Err.cardNum
    | .ok n => Except.ok n
  let m ← matchesOfLine useful_text
  return (card_number, m)

/-- Loop of day 4 `solve_part_one`: a card with `m > 0` matches scores
`2 ^ (m - 1)` (the `1 << (m - 1)` of the source). -/
def part_one_go : List Str → Nat → Except Err Nat
  | [], total_points => .ok total_points
  | l :: t, total_points => do
    let m ← parseLinePartOne l
    part_one_go t (if m > 0 then total_points + 2 ^ (m - 1) else total_points)

/-- Model of day 4 `solve_part_one`. -/
def solve_part_one (text : Str) : Except Err Nat := part_one_go (linesOf text) 0

/-- Counter lookup: the model of `HashMap<usize, usize>` is an association
list with unique keys in first-insertion order. -/
def getCount (counts : List (Nat × Nat)) (k : Nat) : Option Nat :=
  (counts.find? (fun e => e.1 = k)).map (fun e => e.2)

/-- Entry update of the card-copy counter: add `v` to an occupied entry,
insert `v` for a vacant key. -/
def addTo : List (Nat × Nat) → Nat → Nat → List (Nat × Nat)
  | [], k, v => [(k, v)]
  | (k', v') :: t, k, v =>
    if k = k' then (k', v' + v) :: t
    else (k', v') :: addTo t k v

/-- Cascade loop of day 4 `solve_part_two`: for `i` in `1..=m`, add the
current instance count of `card_number` (defaulting to `1` if absent, a case
that never arises because the entry was just created) to the counter of
`card_number + i`. -/
def cascade (counts : List (Nat × Nat)) (card_number m : Nat) : List (Nat × Nat) :=
  (List.range' 1 m).foldl
    (fun cs i => addTo cs (card_number + i) ((getCount cs card_number).getD 1)) counts

/-- Sum taken on the last line of day 4 `solve_part_two`: instance counts of
the ids not exceeding the final card number (iteration order of the
`HashMap` is immaterial for a sum). -/
def sumUpTo (counts : List (Nat × Nat)) (card_number : Nat) : Nat :=
  ((counts.filter (fun kv => kv.1 ≤ card_number)).map (fun kv => kv.2)).sum

/-- Main loop of day 4 `solve_part_two`: bump the current card's counter by
one, cascade its matches forward, and on the last line (`peek` returns
nothing) sum the surviving counters.  An input without lines returns the
initial `sum` of zero. -/
def part_two_go : List Str → List (Nat × Nat) → Except Err Nat
  | [], _ => .ok 0
  | l :: rest, card_counts => do
    let (card_number, m) ← parse_card l
    let card_counts := addTo card_counts card_number 1
    let card_counts := cascade card_counts card_number m
    match rest with
    | [] => .ok (sumUpTo card_counts card_number)
    | _ :: _ => part_two_go rest card_counts

/-- Model of day 4 `solve_part_two`. -/
def solve_part_two (text : Str) : Except Err Nat := part_two_go (linesOf text) []

/-- Specification view (amended claim): the counter state after processing a
list of parsed `(id, match_count)` cards in input order. -/
def specCounts (cards : List (Nat × Nat)) : List (Nat × Nat) :=
  cards.foldl (fun cs idm => cascade (addTo cs idm.1 1) idm.1 idm.2) []

/-- Specification view (amended claim): the returned value is the sum of the
instance counts of the ids not exceeding the last line's card id, zero for an
empty input. -/
def specValue (cards : List (Nat × Nat)) : Nat :=
  match cards.getLast? with
  | none => 0
  | some idm => sumUpTo (specCounts cards) idm.1

/-- Specification view of the claim as stated: sum the instance counts of
exactly the ids that appeared as cards in the input. -/
def claimValueAppeared (cards : List (Nat × Nat)) : Nat :=
  (((specCounts cards).filter (fun kv => kv.1 ∈ cards.map (fun c => c.1))).map
    (fun kv => kv.2)).sum

/-- Counterexample input for the claim as stated: card ids `5` then `2`, no
matches anywhere. -/
def cexText : Str := (r"Card 5: 1 | 2" ++ "\n" ++ r"Card 2: 1 | 2").data

end day4

/-! ## Theorems -/

namespace day3

theorem is_a_symbol_of_digit {c : Char} (h : c.isDigit = true) : is_a_symbol c = false := by
  simp [is_a_symbol, h]


theorem finalize_err_shape {row b e : Nat} {cur : Str} {err : Err}
    (h : finalize_part_number row b e cur = .error err) : ∃ ne, err = Err.num ne := by
  unfold finalize_part_number at h
  cases hp : rust.parseU64 cur <;>
    simp [hp, Except.mapError, Except.map] at h
  exact ⟨_, h.symm⟩

theorem parseGo_no_digitAndSymbol :
    ∀ (cs : List Char) (row i : Nat) (parsing : Bool) (begin_ : Nat) (cur : Str)
      (pns : List PartNumber) (tab : LookupTable),
      hitsDigitAndSymbol (parseGo row cs i parsing begin_ cur pns tab) = false := by
  intro cs
  induction cs with
  | nil => intro row i parsing begin_ cur pns tab; simp [parseGo, hitsDigitAndSymbol]
  | cons c rest ih =>
    intro row i parsing begin_ cur pns tab
    cases hd : c.isDigit
    · cases hs : is_a_symbol c <;> cases parsing <;> simp only [parseGo, hd, hs]
      · apply ih
      · split
        · simp [hitsDigitAndSymbol]
        · split
          · rename_i err heq
            rcases finalize_err_shape heq with ⟨ne, rfl⟩
            simp [hitsDigitAndSymbol]
          · apply ih
      · apply ih
      · split
        · simp [hitsDigitAndSymbol]
        · split
          · rename_i err heq
            rcases finalize_err_shape heq with ⟨ne, rfl⟩
            simp [hitsDigitAndSymbol]
          · apply ih
    · have hs := is_a_symbol_of_digit hd
      cases parsing <;> simp only [parseGo, hd, hs]
      · apply ih
      · cases rest with
        | nil =>
          simp only []
          split
          · rename_i err heq
            rcases finalize_err_shape heq with ⟨ne, rfl⟩
            simp [hitsDigitAndSymbol]
          · apply ih
        | cons d ds => apply ih

theorem parseGo_no_underflow :
    ∀ (cs : List Char) (row i : Nat) (parsing : Bool) (begin_ : Nat) (cur : Str)
      (pns : List PartNumber) (tab : LookupTable),
      (parsing = true → 1 ≤ i) →
      hitsUnderflow (parseGo row cs i parsing begin_ cur pns tab) = false := by
  intro cs
  induction cs with
  | nil => intro row i parsing begin_ cur pns tab _; simp [parseGo, hitsUnderflow]
  | cons c rest ih =>
    intro row i parsing begin_ cur pns tab hinv
    cases hd : c.isDigit
    · cases hs : is_a_symbol c <;> cases parsing <;> simp only [parseGo, hd, hs]
      · exact ih _ _ _ _ _ _ _ (by simp)
      · have hi : ¬ i = 0 := by
          intro h0
          exact absurd (hinv rfl) (by simp [h0])
        simp only [hi, if_false]
        split
        · rename_i err heq
          rcases finalize_err_shape heq with ⟨ne, rfl⟩
          simp [hitsUnderflow]
        · exact ih _ _ _ _ _ _ _ (by simp)
      · exact ih _ _ _ _ _ _ _ (by simp)
      · have hi : ¬ i = 0 := by
          intro h0
          exact absurd (hinv rfl) (by simp [h0])
        simp only [hi, if_false]
        split
        · rename_i err heq
          rcases finalize_err_shape heq with ⟨ne, rfl⟩
          simp [hitsUnderflow]
        · exact ih _ _ _ _ _ _ _ (by simp)
    · have hs := is_a_symbol_of_digit hd
      cases parsing <;> simp only [parseGo, hd, hs]
      · exact ih _ _ _ _ _ _ _ (fun _ => Nat.le_add_left 1 i)
      · cases rest with
        | nil =>
          simp only []
          split
          · rename_i err heq
            rcases finalize_err_shape heq with ⟨ne, rfl⟩
            simp [hitsUnderflow]
          · exact ih _ _ _ _ _ _ _ (by simp)
        | cons d ds => exact ih _ _ _ _ _ _ _ (fun _ => Nat.le_add_left 1 i)

end day3

/-- C8: in the Schematic Scanner, no character is classified both as an ASCII
digit and as a symbol (the digit check excludes the symbol check by
construction), and consequently the scanner's digit-and-symbol branch (the
modelled `unreachable!()`) is never taken, for every input row. -/
theorem C8_digit_and_symbol_unreachable :
    (∀ c : Char, (c.isDigit && day3.is_a_symbol c) = false) ∧
    (∀ (text : Str) (row : Nat), day3.hitsDigitAndSymbol (day3.parse text row) = false) := by
  constructor
  · intro c
    cases hd : c.isDigit
    · simp
    · simp [day3.is_a_symbol_of_digit hd]
  · intro text row
    exact day3.parseGo_no_digitAndSymbol text row 0 false 0 [] [] []

/-- C10: in the Schematic Scanner's per-row parse, finalizing a digit run
with end column `i - 1` never underflows: the `ParsingNumber` state is only
reached after a digit at an earlier column, so `i ≥ 1` whenever the
subtraction happens (the modelled underflow error is never produced, for
every input row). -/
theorem C10_no_index_underflow :
    ∀ (text : Str) (row : Nat), day3.hitsUnderflow (day3.parse text row) = false := by
  intro text row
  exact day3.parseGo_no_underflow text row 0 false 0 [] [] [] (by simp)

namespace day1

theorem sumLines_eq_mapE (f : Str → Except Err Nat) :
    ∀ (ls : List Str) (acc : Nat),
      sumLines f ls acc = (mapE f ls).map (fun ns => acc + ns.sum) := by
  intro ls
  induction ls with
  | nil => intro acc; simp [sumLines, mapE, Except.map]
  | cons l t ih =>
    intro acc
    simp only [sumLines, mapE]
    cases hf : f l with
    | error e => simp [Except.map]
    | ok v =>
      dsimp only
      rw [ih]
      cases hm : mapE f t with
      | error e => simp [Except.map]
      | ok vs =>
        simp [Except.map]
        omega

end day1

/-- C9: the parallel day-1 variants `mt::solve_part_one` and
`mt::solve_part_two`, modelled as a map over the lines collected into a
`Result` followed by a sum, return exactly the same value as the sequential
solvers on every input text. -/
theorem C9_mt_variants_equal_sequential :
    ∀ text : Str,
      day1.mt_solve_part_one text = day1.solve_part_one text ∧
      day1.mt_solve_part_two text = day1.solve_part_two text := by
  intro text
  constructor
  · unfold day1.mt_solve_part_one day1.solve_part_one
    rw [day1.sumLines_eq_mapE]
    cases hm : mapE day1.extract_first_and_last_digits (rust.linesOf text) <;>
      simp [Except.map]
  · unfold day1.mt_solve_part_two day1.solve_part_two
    rw [day1.sumLines_eq_mapE]
    cases hm : mapE day1.extract_first_and_last_digit_or_numeric_word (rust.linesOf text) <;>
      simp [Except.map]

theorem firstErr_cons {ε α : Type} (f : Str → Except ε α) (l : Str) (t : List Str) :
    firstErr f (l :: t) =
      (match f l with | .error e => some e | .ok _ => firstErr f t) := by
  simp only [firstErr, List.findSome?_cons]
  cases f l <;> simp

theorem mapE_error_iff {ε α : Type} (f : Str → Except ε α) :
    ∀ (ls : List Str) (e : ε), (mapE f ls = .error e) ↔ (firstErr f ls = some e) := by
  intro ls
  induction ls with
  | nil => intro e; simp [mapE, firstErr]
  | cons l t ih =>
    intro e
    rw [firstErr_cons]
    simp only [mapE]
    cases hf : f l with
    | error e' => simp
    | ok v =>
      dsimp only
      cases hm : mapE f t with
      | error e' => simp [Except.map, (ih e').mp hm]
      | ok vs =>
        simp only [Except.map]
        constructor
        · intro h; cases h
        · intro h
          have := (ih e).mpr h
          rw [hm] at this
          cases this

namespace day1

theorem sumLines_error_iff (f : Str → Except Err Nat) :
    ∀ (ls : List Str) (acc : Nat) (e : Err),
      (sumLines f ls acc = .error e) ↔ (firstErr f ls = some e) := by
  intro ls
  induction ls with
  | nil => intro acc e; simp [sumLines, firstErr]
  | cons l t ih =>
    intro acc e
    rw [firstErr_cons]
    simp only [sumLines]
    cases hf : f l with
    | error e' => simp
    | ok v => simpa using ih (acc + v) e

end day1

namespace day2

theorem part_one_ids_error_iff :
    ∀ (ls : List Str) (e : Err),
      (part_one_ids ls = .error e) ↔ (firstErr parse_line ls = some e) := by
  intro ls
  induction ls with
  | nil => intro e; simp [part_one_ids, firstErr]
  | cons l t ih =>
    intro e
    rw [firstErr_cons]
    simp only [part_one_ids, bind, Except.bind]
    cases hp : parse_line l with
    | error e' => simp
    | ok data =>
      dsimp only
      cases hr : part_one_ids t with
      | error e' => simp [(ih e').mp hr]
      | ok rest =>
        constructor
        · intro h
          cases hb : possible_game (highest_count_seen data) allowed_for_part_one <;>
            simp [hb, pure, Except.pure] at h
        · intro h
          have := (ih e).mpr h
          rw [hr] at this
          cases this

theorem part_two_powers_error_iff :
    ∀ (ls : List Str) (e : Err),
      (part_two_powers ls = .error e) ↔ (firstErr parse_line ls = some e) := by
  intro ls
  induction ls with
  | nil => intro e; simp [part_two_powers, firstErr]
  | cons l t ih =>
    intro e
    rw [firstErr_cons]
    simp only [part_two_powers, bind, Except.bind]
    cases hp : parse_line l with
    | error e' => simp
    | ok data =>
      dsimp only
      cases hr : part_two_powers t with
      | error e' => simp [(ih e').mp hr]
      | ok rest =>
        constructor
        · intro h; cases h
        · intro h
          have := (ih e).mpr h
          rw [hr] at this
          cases this

end day2

namespace day3

theorem gather_error_iff :
    ∀ (ls : List Str) (i : Nat) (pns : List PartNumber) (tab : LookupTable) (e : Err),
      (gather ls i pns tab = .error e) ↔ (firstErrIdx ls i = some e) := by
  intro ls
  induction ls with
  | nil => intro i pns tab e; simp [gather, firstErrIdx]
  | cons l t ih =>
    intro i pns tab e
    simp only [gather, firstErrIdx, bind, Except.bind]
    cases hp : parse l i with
    | error e' => simp
    | ok pr => simpa using ih (i + 1) (pns ++ pr.1) (pr.2 ++ tab) e

end day3

namespace day4

theorem part_one_go_error_iff :
    ∀ (ls : List Str) (acc : Nat) (e : Err),
      (part_one_go ls acc = .error e) ↔ (firstErr parseLinePartOne ls = some e) := by
  intro ls
  induction ls with
  | nil => intro acc e; simp [part_one_go, firstErr]
  | cons l t ih =>
    intro acc e
    rw [firstErr_cons]
    simp only [part_one_go, bind, Except.bind]
    cases hp : parseLinePartOne l with
    | error e' => simp
    | ok m => simpa using ih _ e

theorem part_two_go_error_iff :
    ∀ (ls : List Str) (counts : List (Nat × Nat)) (e : Err),
      (part_two_go ls counts = .error e) ↔ (firstErr parse_card ls = some e) := by
  intro ls
  induction ls with
  | nil => intro counts e; simp [part_two_go, firstErr]
  | cons l t ih =>
    intro counts e
    rw [firstErr_cons]
    simp only [part_two_go, bind, Except.bind]
    cases hp : parse_card l with
    | error e' => simp
    | ok idm =>
      dsimp only
      cases t with
      | nil => simp [firstErr]
      | cons l' t' => simpa using ih _ e

end day4

/-- C7: for every solver of every module, the solve returns a typed error
exactly when some line is malformed for that solver's per-line parser, and
the error returned is the first malformed line's error — the first malformed
line aborts the whole solve with no partial result. -/
theorem C7_first_malformed_line_aborts (text : Str) :
    (∀ e, day1.solve_part_one text = .error e ↔
      firstErr day1.extract_first_and_last_digits (rust.linesOf text) = some e) ∧
    (∀ e, day1.solve_part_two text = .error e ↔
      firstErr day1.extract_first_and_last_digit_or_numeric_word (rust.linesOf text) = some e) ∧
    (∀ e, day1.mt_solve_part_one text = .error e ↔
      firstErr day1.extract_first_and_last_digits (rust.linesOf text) = some e) ∧
    (∀ e, day1.mt_solve_part_two text = .error e ↔
      firstErr day1.extract_first_and_last_digit_or_numeric_word (rust.linesOf text) = some e) ∧
    (∀ e, day2.solve_part_one text = .error e ↔
      firstErr day2.parse_line (rust.linesOf text) = some e) ∧
    (∀ e, day2.solve_part_two text = .error e ↔
      firstErr day2.parse_line (rust.linesOf text) = some e) ∧
    (∀ e, day3.solve_part_one text = .error e ↔
      day3.firstErrIdx (rust.linesOf text) 0 = some e) ∧
    (∀ e, day3.solve_part_two text = .error e ↔
      day3.firstErrIdx (rust.linesOf text) 0 = some e) ∧
    (∀ e, day4.solve_part_one text = .error e ↔
      firstErr day4.parseLinePartOne (rust.linesOf text) = some e) ∧
    (∀ e, day4.solve_part_two text = .error e ↔
      firstErr day4.parse_card (rust.linesOf text) = some e) := by
  refine ⟨?_, ?_, ?_, ?_, ?_, ?_, ?_, ?_, ?_, ?_⟩
  · intro e
    exact day1.sumLines_error_iff _ _ 0 e
  · intro e
    exact day1.sumLines_error_iff _ _ 0 e
  · intro e
    unfold day1.mt_solve_part_one
    rw [← mapE_error_iff]
    cases hm : mapE day1.extract_first_and_last_digits (rust.linesOf text) <;> simp [Except.map]
  · intro e
    unfold day1.mt_solve_part_two
    rw [← mapE_error_iff]
    cases hm : mapE day1.extract_first_and_last_digit_or_numeric_word (rust.linesOf text) <;>
      simp [Except.map]
  · intro e
    unfold day2.solve_part_one
    rw [← day2.part_one_ids_error_iff]
    cases hm : day2.part_one_ids (rust.linesOf text) <;> simp [Except.map]
  · intro e
    unfold day2.solve_part_two
    rw [← day2.part_two_powers_error_iff]
    cases hm : day2.part_two_powers (rust.linesOf text) <;> simp [Except.map]
  · intro e
    unfold day3.solve_part_one
    rw [← day3.gather_error_iff _ 0 [] []]
    cases hm : day3.gather (rust.linesOf text) 0 [] [] <;>
      simp [bind, Except.bind, pure, Except.pure]
  · intro e
    unfold day3.solve_part_two
    rw [← day3.gather_error_iff _ 0 [] []]
    cases hm : day3.gather (rust.linesOf text) 0 [] [] <;>
      simp [bind, Except.bind, pure, Except.pure]
  · intro e
    exact day4.part_one_go_error_iff _ 0 e
  · intro e
    exact day4.part_two_go_error_iff _ [] e

namespace day4

theorem part_two_go_ok :
    ∀ (ls : List Str) (counts : List (Nat × Nat)) (cards : List (Nat × Nat)),
      mapE parse_card ls = .ok cards →
      part_two_go ls counts = .ok
        (match cards.getLast? with
         | none => 0
         | some idm =>
             sumUpTo (cards.foldl (fun cs x => cascade (addTo cs x.1 1) x.1 x.2) counts) idm.1) := by
  intro ls
  induction ls with
  | nil =>
    intro counts cards h
    simp only [mapE] at h
    cases h
    simp [part_two_go]
  | cons l t ih =>
    intro counts cards h
    simp only [mapE] at h
    cases hp : parse_card l with
    | error e => rw [hp] at h; cases h
    | ok idm =>
      rw [hp] at h
      dsimp only at h
      cases hm : mapE parse_card t with
      | error e => rw [hm] at h; cases h
      | ok rest =>
        rw [hm] at h
        simp only [Except.map] at h
        cases h
        simp only [part_two_go, bind, Except.bind, hp]
        cases t with
        | nil =>
          simp only [mapE] at hm
          cases hm
          simp
        | cons l' t' =>
          rw [ih _ rest hm]
          have hne : rest ≠ [] := by
            intro hr
            rw [hr] at hm
            simp only [mapE] at hm
            cases hpc : parse_card l' with
            | error e => rw [hpc] at hm; cases hm
            | ok x =>
              rw [hpc] at hm
              dsimp only at hm
              cases hmm : mapE parse_card t' with
              | error e => rw [hmm] at hm; cases hm
              | ok xs => rw [hmm] at hm; simp [Except.map] at hm
          obtain ⟨r, rs, rfl⟩ := List.exists_cons_of_ne_nil hne
          simp [List.foldl_cons]

end day4

/-- C1 (amended): for every input whose lines all parse, day 4
`solve_part_two` maintains a per-card-id instance counter — the counter of a
card's id is incremented by one when its line is processed (a counter not yet
present starts at zero, so an id first seen as a card line starts at one),
and for a card with `match_count = m` at `id`, the counters of
`id + 1 .. id + m` are each incremented by the current instance count of
`id` — and the returned value is the sum of the instance counts of the ids
not exceeding the final line's card id. -/
theorem C1_part_two_counter_spec (text : Str) (cards : List (Nat × Nat))
    (h : mapE day4.parse_card (rust.linesOf text) = .ok cards) :
    day4.solve_part_two text = .ok (day4.specValue cards) := by
  unfold day4.solve_part_two day4.specValue day4.specCounts
  cases hc : cards.getLast? with
  | none => rw [day4.part_two_go_ok _ [] cards h, hc]
  | some idm => rw [day4.part_two_go_ok _ [] cards h, hc]

/-- C1 witness: a concrete run of the amended claim — card 1 has two matches
and cascades onto ids 2 and 3, card 3 is the last line, and the result is
the sum of the counters of ids 1, 2, 3. -/
theorem C1_witness :
    day4.solve_part_two ((r"Card 1: 5 7 | 5 7" ++ "\n" ++ r"Card 3: 1 | 2").data) =
      .ok (day4.specValue [(1, 2), (3, 0)]) :=
  C1_part_two_counter_spec ((r"Card 1: 5 7 | 5 7" ++ "\n" ++ r"Card 3: 1 | 2").data)
    [(1, 2), (3, 0)] (by rfl)

/-- C1 counterexample: the claim as stated says the returned value sums the
instance counts of exactly the ids that appeared as cards.  On the two-line
input with card ids 5 then 2 (no matches anywhere), both cards appeared and
each has one instance, so the claim demands 2, but the code filters by
`id <= 2` (the final line's card id) and returns 1. -/
theorem C1_counterexample :
    mapE day4.parse_card (rust.linesOf day4.cexText) = .ok [(5, 0), (2, 0)] ∧
    day4.claimValueAppeared [(5, 0), (2, 0)] = 2 ∧
    day4.solve_part_two day4.cexText = .ok 1 := by
  refine ⟨by rfl, by rfl, by rfl⟩


namespace day2

theorem mem_firstOccurAux {α : Type} [DecidableEq α] :
    ∀ (l seen : List α) (x : α), x ∈ firstOccurAux seen l ↔ (x ∈ l ∧ x ∉ seen) := by
  intro l
  induction l with
  | nil => intro seen x; simp [firstOccurAux]
  | cons a t ih =>
    intro seen x
    simp only [firstOccurAux]
    by_cases ha : a ∈ seen
    · rw [if_pos ha, ih]
      by_cases hxa : x = a <;> simp_all
    · rw [if_neg ha]
      simp only [List.mem_cons, ih, List.mem_cons]
      by_cases hxa : x = a <;> simp_all

theorem mem_firstOccur {α : Type} [DecidableEq α] (l : List α) (x : α) :
    x ∈ firstOccur l ↔ x ∈ l := by
  rw [firstOccur, mem_firstOccurAux]
  simp

theorem nodup_firstOccurAux {α : Type} [DecidableEq α] :
    ∀ (l seen : List α), (firstOccurAux seen l).Nodup := by
  intro l
  induction l with
  | nil => intro seen; simp [firstOccurAux]
  | cons a t ih =>
    intro seen
    simp only [firstOccurAux]
    by_cases ha : a ∈ seen
    · rw [if_pos ha]; exact ih seen
    · rw [if_neg ha]
      refine List.Nodup.cons ?_ (ih (a :: seen))
      intro hmem
      exact ((mem_firstOccurAux t (a :: seen) a).mp hmem).2 (List.mem_cons_self a seen)

theorem nodup_firstOccur {α : Type} [DecidableEq α] (l : List α) : (firstOccur l).Nodup :=
  nodup_firstOccurAux l []

theorem firstOccurAux_append_singleton {α : Type} [DecidableEq α] :
    ∀ (l seen : List α) (a : α),
      firstOccurAux seen (l ++ [a]) =
        if a ∈ seen ∨ a ∈ l then firstOccurAux seen l
        else firstOccurAux seen l ++ [a] := by
  intro l
  induction l with
  | nil =>
    intro seen a
    by_cases h : a ∈ seen <;> simp [h, firstOccurAux]
  | cons b t ih =>
    intro seen a
    simp only [List.cons_append, firstOccurAux]
    simp only [List.append_eq]
    by_cases hb : b ∈ seen
    · rw [if_pos hb, if_pos hb, ih]
      by_cases h1 : a ∈ seen <;> by_cases h2 : a ∈ t <;> by_cases h3 : a = b <;>
        simp_all
    · rw [if_neg hb, if_neg hb, ih]
      by_cases h1 : a ∈ seen <;> by_cases h2 : a ∈ t <;> by_cases h3 : a = b <;>
        simp_all

theorem firstOccur_append_singleton {α : Type} [DecidableEq α] (l : List α) (a : α) :
    firstOccur (l ++ [a]) =
      if a ∈ l then firstOccur l else firstOccur l ++ [a] := by
  rw [firstOccur, firstOccurAux_append_singleton, firstOccur]
  simp

theorem updateMax_map_mem (f : Str → Nat) (c : Str) (n : Nat) :
    ∀ ks : List Str, ks.Nodup → c ∈ ks →
      updateMax (ks.map (fun k => (k, f k))) c n =
        ks.map (fun k => (k, if k = c then max (f k) n else f k)) := by
  intro ks
  induction ks with
  | nil => intro _ h; cases h
  | cons k t ih =>
    intro hnd hmem
    simp only [List.map_cons, updateMax]
    by_cases hck : c = k
    · rw [if_pos hck]
      subst hck
      have hcn : c ∉ t := (List.nodup_cons.mp hnd).1
      have hmax : (if f c < n then n else f c) = max (f c) n := by
        rcases le_or_lt n (f c) with h | h
        · rw [max_eq_left h, if_neg (not_lt.mpr h)]
        · rw [max_eq_right (le_of_lt h), if_pos h]
      rw [hmax, if_pos rfl]
      congr 1
      apply (List.map_congr_left ?_).symm
      intro x hx
      rw [if_neg (by rintro rfl; exact hcn hx)]
    · rw [if_neg hck]
      have hmem' : c ∈ t := by
        rcases List.mem_cons.mp hmem with h | h
        · exact absurd h.symm (fun h' => hck h'.symm)
        · exact h
      rw [ih (List.nodup_cons.mp hnd).2 hmem', if_neg (fun h => hck h.symm)]

theorem updateMax_map_not_mem (f : Str → Nat) (c : Str) (n : Nat) :
    ∀ ks : List Str, c ∉ ks →
      updateMax (ks.map (fun k => (k, f k))) c n =
        ks.map (fun k => (k, f k)) ++ [(c, n)] := by
  intro ks
  induction ks with
  | nil => intro _; simp [updateMax]
  | cons k t ih =>
    intro hmem
    simp only [List.map_cons, updateMax]
    rw [if_neg (fun h => hmem (List.mem_cons.mpr (Or.inl h)))]
    rw [ih (fun h => hmem (List.mem_cons_of_mem _ h))]
    simp

theorem maxOf_append_singleton (ds : List (Nat × Str)) (p : Nat × Str) (c : Str) :
    maxOf (ds ++ [p]) c = if p.2 = c then max (maxOf ds c) p.1 else maxOf ds c := by
  unfold maxOf
  rw [List.filter_append]
  by_cases h : p.2 = c
  · simp [h]
  · simp [h]

theorem maxOf_not_mem (ds : List (Nat × Str)) (c : Str)
    (h : c ∉ ds.map (fun p => p.2)) : maxOf ds c = 0 := by
  unfold maxOf
  rw [List.filter_eq_nil_iff.mpr ?_]
  · rfl
  · intro p hp hc
    exact h (List.mem_map.mpr ⟨p, hp, by simpa using hc⟩)

theorem buildCounts_entries :
    ∀ ds : List (Nat × Str),
      buildCounts ds =
        (firstOccur (ds.map (fun p => p.2))).map (fun c => (c, maxOf ds c)) := by
  intro ds
  induction ds using List.reverseRecOn with
  | nil => simp [buildCounts, firstOccur, firstOccurAux]
  | append_singleton ds p ih =>
    have hb : buildCounts (ds ++ [p]) = updateMax (buildCounts ds) p.2 p.1 := by
      unfold buildCounts
      rw [List.foldl_append]
      rfl
    rw [hb, ih, List.map_append]
    simp only [List.map_cons, List.map_nil]
    rw [firstOccur_append_singleton]
    by_cases hmem : p.2 ∈ ds.map (fun q => q.2)
    · rw [if_pos hmem]
      rw [updateMax_map_mem _ _ _ _ (nodup_firstOccur _) ((mem_firstOccur _ _).mpr hmem)]
      apply List.map_congr_left
      intro c hc
      rw [maxOf_append_singleton]
      by_cases hcc : c = p.2
      · rw [if_pos hcc, if_pos hcc.symm, hcc]
      · rw [if_neg hcc, if_neg (fun h => hcc h.symm)]
    · rw [if_neg hmem]
      rw [updateMax_map_not_mem _ _ _ _ ((mem_firstOccur _ _).not.mpr hmem)]
      rw [List.map_append]
      congr 1
      · apply List.map_congr_left
        intro c hc
        rw [maxOf_append_singleton]
        have hcm : c ∈ ds.map (fun q => q.2) := (mem_firstOccur _ _).mp hc
        rw [if_neg (fun h => hmem (by rw [h]; exact hcm))]
      · simp only [List.map_cons, List.map_nil]
        rw [maxOf_append_singleton, if_pos rfl, maxOf_not_mem _ _ hmem]
        simp [max_comm]

theorem hcs_eq_buildCounts (g : GameData) :
    highest_count_seen g = buildCounts (draws g) := by
  unfold highest_count_seen buildCounts draws
  rw [List.foldl_flatten]

theorem hcs_entries (g : GameData) :
    highest_count_seen g = (firstOccur (colorsOf g)).map (fun c => (c, maxCount g c)) := by
  rw [hcs_eq_buildCounts, buildCounts_entries]
  rfl

theorem possible_game_eq_spec (g : GameData) :
    possible_game (highest_count_seen g) allowed_for_part_one = specPossible g := by
  rw [hcs_entries]
  unfold possible_game specPossible
  rw [Bool.eq_iff_iff]
  simp only [List.all_eq_true]
  constructor
  · intro h c hc
    exact h (c, maxCount g c) (List.mem_map.mpr ⟨c, (mem_firstOccur _ _).mpr hc, rfl⟩)
  · intro h p hp
    rcases List.mem_map.mp hp with ⟨c, hc, rfl⟩
    exact h c ((mem_firstOccur _ _).mp hc)

theorem power_eq_spec (g : GameData) :
    ((highest_count_seen g).map (fun p => p.2)).prod = specPower g := by
  rw [hcs_entries]
  unfold specPower
  rw [List.map_map]
  rfl

theorem part_one_ids_ok :
    ∀ (ls : List Str) (games : List GameData),
      mapE parse_line ls = .ok games →
      part_one_ids ls = .ok
        ((games.filter
          (fun g => possible_game (highest_count_seen g) allowed_for_part_one)).map
            (fun g => g.1)) := by
  intro ls
  induction ls with
  | nil =>
    intro games h
    simp only [mapE] at h
    cases h
    simp [part_one_ids]
  | cons l t ih =>
    intro games h
    simp only [mapE] at h
    cases hp : parse_line l with
    | error e => rw [hp] at h; cases h
    | ok data =>
      rw [hp] at h
      dsimp only at h
      cases hm : mapE parse_line t with
      | error e => rw [hm] at h; cases h
      | ok rest =>
        rw [hm] at h
        simp only [Except.map] at h
        cases h
        simp only [part_one_ids, bind, Except.bind, hp, ih rest hm]
        cases hb : possible_game (highest_count_seen data) allowed_for_part_one <;>
          simp [hb, pure, Except.pure, List.filter_cons]

theorem part_two_powers_ok :
    ∀ (ls : List Str) (games : List GameData),
      mapE parse_line ls = .ok games →
      part_two_powers ls = .ok
        (games.map (fun g => ((highest_count_seen g).map (fun p => p.2)).prod)) := by
  intro ls
  induction ls with
  | nil =>
    intro games h
    simp only [mapE] at h
    cases h
    simp [part_two_powers]
  | cons l t ih =>
    intro games h
    simp only [mapE] at h
    cases hp : parse_line l with
    | error e => rw [hp] at h; cases h
    | ok data =>
      rw [hp] at h
      dsimp only at h
      cases hm : mapE parse_line t with
      | error e => rw [hm] at h; cases h
      | ok rest =>
        rw [hm] at h
        simp only [Except.map] at h
        cases h
        simp [part_two_powers, bind, Except.bind, hp, ih rest hm, pure, Except.pure]

end day2

/-- C6: for every input text whose lines all parse, day 2 `solve_part_one`
returns the sum of the ids of exactly the possible games, where a game is
possible iff every color observed in it has its maximum count across the
game's subsets within the fixed limits red is at most 12, green at most 13,
blue at most 14 (a game showing any other color is never possible). -/
theorem C6_part_one_sums_possible_ids (text : Str) (games : List day2.GameData)
    (h : mapE day2.parse_line (rust.linesOf text) = .ok games) :
    day2.solve_part_one text =
      .ok (((games.filter day2.specPossible).map (fun g => g.1)).sum) := by
  unfold day2.solve_part_one
  rw [day2.part_one_ids_ok _ _ h]
  simp only [Except.map]
  congr 2
  congr 1
  apply List.filter_congr
  intro g _
  rw [day2.possible_game_eq_spec]

/-- C6 witness: game 1 (3 blue, 4 red) is possible, game 2 (100 red) is not,
so the answer is the id sum 1. -/
theorem C6_witness :
    day2.solve_part_one ((r"Game 1: 3 blue, 4 red" ++ "\n" ++ r"Game 2: 100 red").data) =
      .ok ((([((1 : Nat), [[((3 : Nat), r"blue".data), (4, r"red".data)]]),
              ((2 : Nat), [[((100 : Nat), r"red".data)]])].filter day2.specPossible).map
                (fun g => g.1)).sum) :=
  C6_part_one_sums_possible_ids _ _ (by rfl)

/-- C4: for every input text whose lines all parse, day 2 `solve_part_two`
returns the sum over games of the game's power, the product of the per-color
maximum counts taken over only the colors actually observed in that game's
subsets — a color that never appears contributes no factor and does not zero
out the power. -/
theorem C4_part_two_sums_powers (text : Str) (games : List day2.GameData)
    (h : mapE day2.parse_line (rust.linesOf text) = .ok games) :
    day2.solve_part_two text = .ok ((games.map day2.specPower).sum) := by
  unfold day2.solve_part_two
  rw [day2.part_two_powers_ok _ _ h]
  simp only [Except.map]
  congr 2
  apply List.map_congr_left
  intro g _
  rw [day2.power_eq_spec]

/-- C4 witness: a game in which blue never appears has power 3 * 1 (green
max 3, red max 1) — the missing color contributes no factor instead of
zeroing the product. -/
theorem C4_witness :
    day2.solve_part_two ((r"Game 1: 3 green; 2 green, 1 red").data) =
      .ok (([((1 : Nat), [[((3 : Nat), r"green".data)],
             [((2 : Nat), r"green".data), ((1 : Nat), r"red".data)]])].map
               day2.specPower).sum) :=
  C4_part_two_sums_powers _ _ (by rfl)

namespace day3

theorem attributed_append_singleton (tab : LookupTable) (pns : List PartNumber)
    (pn : PartNumber) (g : SchematicSymbol) :
    attributed tab (pns ++ [pn]) g =
      attributed tab pns g ++
        (if firstStar tab pn = some g then [pn.number] else []) := by
  unfold attributed
  rw [List.filter_append, List.map_append]
  congr 1
  by_cases h : firstStar tab pn = some g <;> simp [h]

theorem pushRatio_map_mem (f : SchematicSymbol → List Nat) (g : SchematicSymbol) (n : Nat) :
    ∀ ks : List SchematicSymbol, ks.Nodup → g ∈ ks →
      pushRatio (ks.map (fun k => (k, f k))) g n =
        ks.map (fun k => (k, if k = g then f k ++ [n] else f k)) := by
  intro ks
  induction ks with
  | nil => intro _ h; cases h
  | cons k t ih =>
    intro hnd hmem
    simp only [List.map_cons, pushRatio]
    by_cases hkg : k = g
    · rw [if_pos hkg]
      subst hkg
      have hkn : k ∉ t := (List.nodup_cons.mp hnd).1
      rw [if_pos rfl]
      congr 1
      apply (List.map_congr_left ?_).symm
      intro x hx
      rw [if_neg (by rintro rfl; exact hkn hx)]
    · rw [if_neg hkg, if_neg hkg]
      have hmem' : g ∈ t := by
        rcases List.mem_cons.mp hmem with h | h
        · exact absurd h.symm hkg
        · exact h
      rw [ih (List.nodup_cons.mp hnd).2 hmem']

theorem pushRatio_map_not_mem (f : SchematicSymbol → List Nat) (g : SchematicSymbol) (n : Nat) :
    ∀ ks : List SchematicSymbol, g ∉ ks →
      pushRatio (ks.map (fun k => (k, f k))) g n =
        ks.map (fun k => (k, f k)) ++ [(g, [n])] := by
  intro ks
  induction ks with
  | nil => intro _; simp [pushRatio]
  | cons k t ih =>
    intro hmem
    simp only [List.map_cons, pushRatio]
    rw [if_neg (fun h => hmem (List.mem_cons.mpr (Or.inl h.symm)))]
    rw [ih (fun h => hmem (List.mem_cons_of_mem _ h))]
    simp

theorem attributed_not_attributed (tab : LookupTable) (pns : List PartNumber)
    (g : SchematicSymbol) (h : g ∉ pns.filterMap (firstStar tab)) :
    attributed tab pns g = [] := by
  unfold attributed
  rw [List.filter_eq_nil_iff.mpr ?_]
  · rfl
  · intro pn hpn hc
    refine h (List.mem_filterMap.mpr ⟨pn, hpn, ?_⟩)
    simpa using hc

theorem groupFold_entries (tab : LookupTable) :
    ∀ pns : List PartNumber,
      groupFold tab pns =
        (starSymbols tab pns).map (fun g => (g, attributed tab pns g)) := by
  intro pns
  induction pns using List.reverseRecOn with
  | nil => simp [groupFold, starSymbols, attributed, day2.firstOccur, day2.firstOccurAux]
  | append_singleton pns pn ih =>
    have hb : groupFold tab (pns ++ [pn]) =
        (match firstStar tab pn with
         | some entry => pushRatio (groupFold tab pns) entry pn.number
         | none => groupFold tab pns) := by
      unfold groupFold
      rw [List.foldl_append]
      rfl
    rw [hb, ih]
    unfold starSymbols
    rw [List.filterMap_append]
    cases hf : firstStar tab pn with
    | none =>
      simp only [List.filterMap_cons, hf, List.filterMap_nil, List.append_nil]
      apply List.map_congr_left
      intro g _
      rw [attributed_append_singleton, hf]
      simp
    | some e =>
      simp only [List.filterMap_cons, hf, List.filterMap_nil]
      rw [day2.firstOccur_append_singleton]
      by_cases hmem : e ∈ pns.filterMap (firstStar tab)
      · rw [if_pos hmem]
        rw [pushRatio_map_mem _ _ _ _ (day2.nodup_firstOccur _)
          ((day2.mem_firstOccur _ _).mpr hmem)]
        apply List.map_congr_left
        intro g hg
        rw [attributed_append_singleton, hf]
        by_cases hge : g = e
        · subst hge
          rw [if_pos rfl, if_pos rfl]
        · rw [if_neg hge, if_neg (by intro hc; exact hge (Option.some_injective _ hc).symm)]
          simp
      · rw [if_neg hmem]
        rw [pushRatio_map_not_mem _ _ _ _ ((day2.mem_firstOccur _ _).not.mpr hmem)]
        rw [List.map_append]
        congr 1
        · apply List.map_congr_left
          intro g hg
          rw [attributed_append_singleton, hf]
          have hgm : g ∈ pns.filterMap (firstStar tab) := (day2.mem_firstOccur _ _).mp hg
          rw [if_neg (by intro hc; exact hmem ((Option.some_injective _ hc) ▸ hgm))]
          simp
        · simp only [List.map_cons, List.map_nil]
          rw [attributed_append_singleton, hf, if_pos rfl,
            attributed_not_attributed tab pns e hmem]
          simp

end day3

/-- C3: for every input grid that parses, day 3 `solve_part_two` attributes
each part number to the first adjacency-map entry with symbol `*` found
scanning columns left to right within its span (skipping entries with other
symbols, so each part number is credited to at most one symbol), groups part
numbers by that exact symbol identity, counts a group as a gear iff it has
exactly two part numbers, and returns the sum over gears of the product of
the two numbers; on the canonical 10x10 example the result is 467835. -/
theorem C3_part_two_gear_sum :
    (∀ (text : Str) (pr : List day3.PartNumber × day3.LookupTable),
      day3.gather (rust.linesOf text) 0 [] [] = .ok pr →
      day3.solve_part_two text = .ok (day3.specGearSum pr.2 pr.1)) ∧
    day3.solve_part_two day3.exampleGrid = .ok 467835 := by
  constructor
  · intro text pr h
    unfold day3.solve_part_two
    rw [h]
    simp only [bind, Except.bind, pure, Except.pure]
    rw [day3.groupFold_entries]
    unfold day3.specGearSum
    rw [List.filter_map, List.map_map]
    rfl
  · rfl

/-- C3 witness: instantiating the general part of the theorem on the example
grid with its concrete parse. -/
theorem C3_witness :
    day3.solve_part_two day3.exampleGrid =
      .ok (day3.specGearSum day3.exampleParsed.2 day3.exampleParsed.1) :=
  C3_part_two_gear_sum.1 day3.exampleGrid day3.exampleParsed (by rfl)

namespace day1

end day1

namespace day1

theorem occursAt_iff {p s : Str} {i : Nat} :
    occursAt p s i = true ↔ (s.drop i).take p.length = p := by
  simp [occursAt]

theorem occursAt_add_length_le {p s : Str} {i : Nat} (hp : p ≠ [])
    (h : occursAt p s i = true) : i + p.length ≤ s.length := by
  rw [occursAt_iff] at h
  have hlen := congrArg List.length h
  rw [List.length_take, List.length_drop] at hlen
  have hpos : 0 < p.length := List.length_pos.mpr hp
  omega

theorem noBorder_spec {p : Str} (h : noBorder p = true) :
    ∀ k, 0 < k → k < p.length → p.drop k ≠ p.take (p.length - k) := by
  intro k hk0 hk
  have := (List.all_eq_true.mp h) k (List.mem_range.mpr hk)
  rcases of_decide_eq_true this with h0 | hne
  · omega
  · exact hne

theorem occursAt_no_overlap {p s : Str} {i j : Nat} (_hp : p ≠ [])
    (hb : noBorder p = true) (hi : occursAt p s i = true)
    (hij : i < j) (hji : j < i + p.length) : occursAt p s j = false := by
  by_contra hc
  have hj : occursAt p s j = true := by
    cases hcc : occursAt p s j
    · exact absurd hcc hc
    · rfl
  rw [occursAt_iff] at hi hj
  set k := j - i with hk
  have hjik : j = i + k := by omega
  have hdd : s.drop j = (s.drop i).drop k := by
    rw [List.drop_drop, ← hjik]
  have hk0 : 0 < k := by omega
  have hklen : k < p.length := by omega
  -- the suffix of p from k equals the prefix of p of length `p.length - k`
  have hsuffix : p.drop k = ((s.drop i).drop k).take (p.length - k) := by
    conv_lhs => rw [← hi]
    rw [List.drop_take]
  have h1 := congrArg (List.take (p.length - k)) hj
  rw [List.take_take, Nat.min_eq_left (by omega)] at h1
  have hprefix : p.take (p.length - k) = ((s.drop i).drop k).take (p.length - k) := by
    rw [← h1, hdd]
  exact noBorder_spec hb k hk0 hklen (hsuffix.trans hprefix.symm)

theorem match_indices_aux_eq {p s : Str} (hp : p ≠ []) (hb : noBorder p = true) :
    ∀ (fuel i : Nat), s.length + 1 - i ≤ fuel →
      match_indices_aux p s i fuel =
        (List.range' i (s.length - i)).filter (fun j => occursAt p s j) := by
  intro fuel
  induction fuel with
  | zero =>
    intro i hfi
    have : s.length - i = 0 := by omega
    rw [this]
    simp [match_indices_aux]
  | succ fuel ih =>
    intro i hfi
    simp only [match_indices_aux]
    by_cases hend : s.length < i + p.length
    · rw [if_pos hend]
      symm
      rw [List.filter_eq_nil_iff]
      intro j hj
      rw [List.mem_range'_1] at hj
      intro hocc
      have := occursAt_add_length_le hp hocc
      omega
    · rw [if_neg hend]
      have hpos : 0 < p.length := List.length_pos.mpr hp
      by_cases hocc : occursAt p s i = true
      · rw [if_pos hocc]
        have hsplit : List.range' i (s.length - i) =
            List.range' i p.length ++
              List.range' (i + p.length) (s.length - (i + p.length)) := by
          have harith : (s.length - (i + p.length)) + p.length = s.length - i := by omega
          calc List.range' i (s.length - i)
              = List.range' i ((s.length - (i + p.length)) + p.length) := by rw [harith]
            _ = List.range' i p.length ++
                  List.range' (i + p.length) (s.length - (i + p.length)) :=
                (List.range'_append_1 i p.length (s.length - (i + p.length))).symm
        rw [hsplit, List.filter_append]
        have hfirst :
            (List.range' i p.length).filter (fun j => occursAt p s j) = [i] := by
          have hcons : List.range' i p.length = i :: List.range' (i + 1) (p.length - 1) := by
            rw [show p.length = (p.length - 1) + 1 by omega, List.range'_succ]
            simp
          rw [hcons, List.filter_cons, if_pos hocc]
          congr 1
          rw [List.filter_eq_nil_iff]
          intro j hj
          rw [List.mem_range'_1] at hj
          intro hoccj
          rw [occursAt_no_overlap hp hb hocc (by omega) (by omega)] at hoccj
          cases hoccj
        rw [hfirst, ih (i + p.length) (by omega)]
        rfl
      · rw [if_neg hocc]
        have hocc' : occursAt p s i = false := by
          cases hcc : occursAt p s i
          · rfl
          · exact absurd hcc hocc
        have hsplit : List.range' i (s.length - i) =
            List.range' i 1 ++ List.range' (i + 1) (s.length - (i + 1)) := by
          have harith : (s.length - (i + 1)) + 1 = s.length - i := by omega
          calc List.range' i (s.length - i)
              = List.range' i ((s.length - (i + 1)) + 1) := by rw [harith]
            _ = List.range' i 1 ++ List.range' (i + 1) (s.length - (i + 1)) :=
                (List.range'_append_1 i 1 (s.length - (i + 1))).symm
        rw [hsplit, List.filter_append]
        have hone : (List.range' i 1).filter (fun j => occursAt p s j) = [] := by
          simp [List.range', List.filter, hocc']
        rw [hone, List.nil_append, ih (i + 1) (by omega)]

theorem mem_match_indices {p s : Str} (hp : p ≠ []) (hb : noBorder p = true) (j : Nat) :
    j ∈ match_indices p s ↔ occursAt p s j = true := by
  unfold match_indices
  rw [match_indices_aux_eq hp hb (s.length + 1) 0 (by omega)]
  rw [List.mem_filter]
  simp only [Nat.sub_zero, List.mem_range'_1]
  constructor
  · rintro ⟨_, h⟩
    exact h
  · intro h
    refine ⟨⟨Nat.zero_le j, ?_⟩, h⟩
    have := occursAt_add_length_le hp h
    have hpos : 0 < p.length := List.length_pos.mpr hp
    omega

theorem nodup_match_indices (p s : Str) (hp : p ≠ []) (hb : noBorder p = true) :
    (match_indices p s).Nodup := by
  unfold match_indices
  rw [match_indices_aux_eq hp hb (s.length + 1) 0 (by omega)]
  exact (List.nodup_range' 0 s.length).filter _

end day1

namespace day1

theorem numerics_nonempty : ∀ p ∈ NUMERICS, p ≠ [] := by decide

theorem numerics_noBorder : ∀ p ∈ NUMERICS, noBorder p = true := by decide

theorem numerics_nodup : NUMERICS.Nodup := by decide

theorem numerics_no_prefix :
    ∀ p ∈ NUMERICS, ∀ q ∈ NUMERICS, p.length ≤ q.length → p = q.take p.length → p = q := by
  decide

theorem to_u64_numerics : ∀ p ∈ NUMERICS, to_u64 p = .ok (numVal p) := by decide

theorem occursAt_unique {s : Str} {i : Nat} {p q : Str}
    (hp : p ∈ NUMERICS) (hq : q ∈ NUMERICS)
    (hop : occursAt p s i = true) (hoq : occursAt q s i = true) : p = q := by
  rcases Nat.le_total p.length q.length with hle | hle
  · apply numerics_no_prefix p hp q hq hle
    rw [occursAt_iff] at hop hoq
    rw [← hoq, List.take_take, Nat.min_eq_left hle, hop]
  · symm
    apply numerics_no_prefix q hq p hp hle
    rw [occursAt_iff] at hop hoq
    rw [← hop, List.take_take, Nat.min_eq_left hle, hoq]

theorem specNumericAt_eq_some {s : Str} {i : Nat} {p : Str} :
    specNumericAt s i = some p ↔ (p ∈ NUMERICS ∧ occursAt p s i = true) := by
  unfold specNumericAt
  constructor
  · intro h
    refine ⟨List.mem_of_find?_eq_some h, ?_⟩
    have h2 := List.find?_some h
    simpa using h2
  · rintro ⟨hmem, hocc⟩
    cases hf : NUMERICS.find? (fun p => occursAt p s i) with
    | none =>
      exfalso
      have hno := List.find?_eq_none.mp hf p hmem
      exact absurd hocc (by simpa using hno)
    | some q =>
      have hqmem := List.mem_of_find?_eq_some hf
      have hqocc := List.find?_some hf
      rw [occursAt_unique hqmem hmem hqocc hocc]

theorem foldl_append_map {α β : Type} (f : α → List β) :
    ∀ (ps : List α) (acc : List β),
      ps.foldl (fun acc p => acc ++ f p) acc = acc ++ (ps.map f).flatten := by
  intro ps
  induction ps with
  | nil => intro acc; simp
  | cons p t ih => intro acc; simp [ih, List.append_assoc]

theorem mem_allPairs {s : Str} {x : Nat × Str} :
    x ∈ (NUMERICS.map (fun p => (match_indices p s).map (fun i => (i, p)))).flatten ↔
      (x.2 ∈ NUMERICS ∧ occursAt x.2 s x.1 = true) := by
  rw [List.mem_flatten]
  constructor
  · rintro ⟨l, hl, hx⟩
    rcases List.mem_map.mp hl with ⟨p, hpN, rfl⟩
    rcases List.mem_map.mp hx with ⟨i, hi, rfl⟩
    refine ⟨hpN, ?_⟩
    exact (mem_match_indices (numerics_nonempty p hpN) (numerics_noBorder p hpN) i).mp hi
  · rintro ⟨hmem, hocc⟩
    refine ⟨(match_indices x.2 s).map (fun i => (i, x.2)), List.mem_map.mpr ⟨x.2, hmem, rfl⟩, ?_⟩
    refine List.mem_map.mpr ⟨x.1, ?_, rfl⟩
    exact (mem_match_indices (numerics_nonempty _ hmem) (numerics_noBorder _ hmem) x.1).mpr hocc

theorem nodup_allPairs (s : Str) :
    ((NUMERICS.map (fun p => (match_indices p s).map (fun i => (i, p)))).flatten).Nodup := by
  rw [List.nodup_flatten]
  constructor
  · intro l hl
    rcases List.mem_map.mp hl with ⟨p, hpN, rfl⟩
    rw [List.nodup_map_iff_inj_on (nodup_match_indices p s (numerics_nonempty p hpN)
      (numerics_noBorder p hpN))]
    intro a _ b _ hab
    exact congrArg Prod.fst hab
  · rw [List.pairwise_map]
    apply List.Pairwise.imp ?_ numerics_nodup
    intro p q hpq x hxp hxq
    rcases List.mem_map.mp hxp with ⟨i, _, rfl⟩
    rcases List.mem_map.mp hxq with ⟨i', _, heq⟩
    exact hpq (congrArg Prod.snd heq).symm

theorem pairwise_filterMap_range' {β : Type} (g : Nat → Option β) (key : β → Nat)
    (hg : ∀ i b, g i = some b → key b = i) :
    ∀ (n a : Nat), ((List.range' a n).filterMap g).Pairwise (fun x y => key x < key y) := by
  intro n
  induction n with
  | zero => intro a; simp
  | succ n ih =>
    intro a
    rw [List.range'_succ, List.filterMap_cons]
    cases hga : g a with
    | none => exact ih (a + 1)
    | some b =>
      refine List.Pairwise.cons ?_ (ih (a + 1))
      intro y hy
      rcases List.mem_filterMap.mp hy with ⟨j, hj, hgj⟩
      rw [List.mem_range'_1] at hj
      rw [hg a b hga, hg j y hgj]
      omega

theorem pairwise_specOccPairs (s : Str) :
    (specOccPairs s).Pairwise (fun x y => x.1 < y.1) := by
  unfold specOccPairs
  rw [List.range_eq_range']
  refine pairwise_filterMap_range'
    (fun i => (specNumericAt s i).map (fun p => (i, p)))
    (fun pr => pr.1) ?_ s.length 0
  intro i b hb
  simp only at hb
  cases hsn : specNumericAt s i with
  | none => rw [hsn] at hb; cases hb
  | some p =>
    rw [hsn] at hb
    simp only [Option.map_some'] at hb
    cases hb
    rfl

theorem mem_specOccPairs {s : Str} {x : Nat × Str} :
    x ∈ specOccPairs s ↔ (x.1 < s.length ∧ specNumericAt s x.1 = some x.2) := by
  unfold specOccPairs
  rw [List.mem_filterMap]
  constructor
  · rintro ⟨i, hi, hgi⟩
    rw [List.mem_range] at hi
    cases hsn : specNumericAt s i with
    | none => rw [hsn] at hgi; cases hgi
    | some p =>
      rw [hsn] at hgi
      simp only [Option.map_some'] at hgi
      cases hgi
      exact ⟨hi, hsn⟩
  · rintro ⟨hlt, hsn⟩
    exact ⟨x.1, List.mem_range.mpr hlt, by rw [hsn]; rfl⟩

end day1

namespace day1

theorem sorted_pairs_eq (s : Str) :
    List.insertionSort byOffset
      ((NUMERICS.map (fun p => (match_indices p s).map (fun i => (i, p)))).flatten) =
    specOccPairs s := by
  set A := (NUMERICS.map (fun p => (match_indices p s).map (fun i => (i, p)))).flatten with hA
  have hperm1 : List.Perm (List.insertionSort byOffset A) A := List.perm_insertionSort _ _
  have hnodupA : A.Nodup := nodup_allPairs s
  have hspec_lt := pairwise_specOccPairs s
  have hnodupS : (specOccPairs s).Nodup := by
    refine hspec_lt.imp ?_
    intro a b h hc
    rw [hc] at h
    exact Nat.lt_irrefl _ h
  have hmem : ∀ x, x ∈ A ↔ x ∈ specOccPairs s := by
    intro x
    rw [hA, mem_allPairs, mem_specOccPairs, specNumericAt_eq_some]
    constructor
    · rintro ⟨hm, ho⟩
      refine ⟨?_, hm, ho⟩
      have hle := occursAt_add_length_le (numerics_nonempty _ hm) ho
      have hpos : 0 < x.2.length := List.length_pos.mpr (numerics_nonempty _ hm)
      omega
    · rintro ⟨_, hm, ho⟩
      exact ⟨hm, ho⟩
  have hperm2 : List.Perm A (specOccPairs s) :=
    (List.perm_ext_iff_of_nodup hnodupA hnodupS).mpr hmem
  have hperm : List.Perm (List.insertionSort byOffset A) (specOccPairs s) := hperm1.trans hperm2
  have hsorted_le : (List.insertionSort byOffset A).Pairwise byOffset :=
    List.sorted_insertionSort byOffset A
  have hkeysS : ((specOccPairs s).map Prod.fst).Nodup :=
    List.Pairwise.map Prod.fst (fun _ _ h => Nat.ne_of_lt h) hspec_lt
  have hkeysL : ((List.insertionSort byOffset A).map Prod.fst).Nodup :=
    ((hperm.map Prod.fst).nodup_iff).mpr hkeysS
  have hkeysL' : ((List.insertionSort byOffset A).map Prod.fst).Pairwise (fun a b => a ≠ b) :=
    hkeysL
  have hfstne : (List.insertionSort byOffset A).Pairwise (fun a b => a.1 ≠ b.1) :=
    (List.pairwise_map).mp hkeysL'
  have hsorted_lt : (List.insertionSort byOffset A).Pairwise (fun a b => a.1 < b.1) := by
    refine (hsorted_le.and hfstne).imp ?_
    intro a b h
    exact Nat.lt_of_le_of_ne h.1 h.2
  haveI : IsAntisymm (Nat × Str) (fun a b => a.1 < b.1) :=
    ⟨fun a b h1 h2 => absurd h2 (Nat.lt_asymm h1)⟩
  exact List.eq_of_perm_of_sorted hperm hsorted_lt hspec_lt

theorem mapE_to_u64_ok :
    ∀ prs : List (Nat × Str), (∀ x ∈ prs, x.2 ∈ NUMERICS) →
      mapE (fun x => to_u64 x.2) prs = .ok (prs.map (fun x => numVal x.2)) := by
  intro prs
  induction prs with
  | nil => intro _; rfl
  | cons a t ih =>
    intro h
    simp only [mapE]
    rw [to_u64_numerics a.2 (h a (List.mem_cons_self a t))]
    rw [ih (fun x hx => h x (List.mem_cons_of_mem _ hx))]
    rfl

theorem filter_digits_eq_spec (s : Str) :
    filter_digits_and_numeric_words s = .ok (specLineValues s) := by
  simp only [filter_digits_and_numeric_words]
  rw [foldl_append_map (fun p => (match_indices p s).map (fun i => (i, p))) NUMERICS []]
  rw [List.nil_append, sorted_pairs_eq,
    mapE_to_u64_ok _ (fun x hx => (specNumericAt_eq_some.mp (mem_specOccPairs.mp hx).2).1)]
  rfl

theorem extract_word_eq_spec (s : Str) :
    extract_first_and_last_digit_or_numeric_word s = specLineValue s := by
  unfold extract_first_and_last_digit_or_numeric_word specLineValue
  rw [filter_digits_eq_spec]
  simp only [bind, Except.bind, specLineValues]

end day1

/-- C2: for every line, day 1 part two's match list is exactly the
occurrences of the ten digit strings and ten number words found by
overlap-tolerant substring search — every occurrence is found even when
occurrences share characters — ordered by starting byte offset and mapped to
their numeric values; the per-line value is ten times the first occurrence's
value plus the last occurrence's value, so the line `eightwothree` yields 83;
and `solve_part_two` sums these per-line values over all lines. -/
theorem C2_part_two_overlap_tolerant :
    (∀ s : Str, day1.filter_digits_and_numeric_words s = .ok (day1.specLineValues s)) ∧
    (day1.extract_first_and_last_digit_or_numeric_word (r"eightwothree").data = .ok 83) ∧
    (∀ text : Str,
      day1.solve_part_two text = day1.sumLines day1.specLineValue (rust.linesOf text) 0) := by
  refine ⟨day1.filter_digits_eq_spec, by rfl, ?_⟩
  intro text
  unfold day1.solve_part_two
  rw [funext day1.extract_word_eq_spec]
